import Mathlib

/-!
Verification of the Pearl repository core
(`hindsight_experience_replay_buffer.py`, `ppo.py`) against its
natural-language specification.

The embedding below models:
* 1-D tensors as `List ℚ`, with Python/torch slice-read and slice-write
  semantics (negative indices, clamping, size-1 broadcasting on write);
* tensor objects as references (`Nat`) into a mutable heap
  (`Heap := Nat → List ℚ`), so that in-place suffix writes performed by
  hindsight relabeling are observable as heap mutation;
* `HindsightExperienceReplayBuffer.push` including the relabeling pass on
  `done = true`, with Python exception propagation modelled as an
  `Option PError` field of the result (mutations performed before the
  exception persist, as in Python);
* `ProximalPolicyOptimization.preprocess_replay_buffer` (GAE / λ-return /
  action-probability annotation) over a list-based replay buffer;
* `ProximalPolicyOptimization._actor_loss` over scalar tensors carrying a
  `live` flag that tracks attachment to the autograd graph (`detach`
  clears the flag; arithmetic propagates it).
-/

namespace Pearl

/-- Errors propagated out of the embedded Python code. `sliceShapeMismatch`
models the indexing/shape error raised by a tensor slice assignment with
incompatible sizes, `rewardFnRaised` an exception raised by the
user-supplied `reward_fn`, `assertionError` a failed `assert`. -/
inductive PError where
  | sliceShapeMismatch
  | rewardFnRaised
  | assertionError
deriving DecidableEq, Repr

/-! ### Python / torch 1-D slicing -/

/-- Python read `l[:-k]` on a 1-D tensor: all elements but the last `k`.
For `k = 0` the slice is `l[:0] = []` (Python `-0 == 0`); for `k > 0` the
stop index `len - k` is clamped at `0`. -/
def pyDropLast (l : List ℚ) (k : Nat) : List ℚ :=
  if k = 0 then [] else l.take (l.length - k)

/-- Start index of the Python slice `l[-k:]`: `0` for `k = 0`
(Python `-0 == 0`), otherwise `len - k` clamped at `0`. -/
def pySuffixStart (l : List ℚ) (k : Nat) : Nat :=
  if k = 0 then 0 else l.length - k

/-- Python read `l[-k:]` on a 1-D tensor. -/
def pySuffix (l : List ℚ) (k : Nat) : List ℚ :=
  l.drop (pySuffixStart l k)

/-- Torch slice assignment `l[-k:] = v`. Succeeds when `v` has exactly the
length of the slice, or when `v` has size 1 (torch broadcasts a size-1
source across the target slice). Otherwise raises a shape error (`none`). -/
def pySetSuffix (l : List ℚ) (k : Nat) (v : List ℚ) : Option (List ℚ) :=
  let n := pySuffixStart l k
  if v.length = l.length - n then
    some (l.take n ++ v)
  else
    match v with
    | [x] => some (l.take n ++ List.replicate (l.length - n) x)
    | _ => none

/-! ### Tensor heap

Tensor objects are identified by a `Nat` reference; the heap maps each
reference to the tensor's current contents. In-place mutation is a heap
update at the written reference. -/

def Heap : Type := Nat → List ℚ

/-- Write reference `i` of the heap. -/
def hupdate (h : Heap) (i : Nat) (v : List ℚ) : Heap :=
  fun j => if j = i then v else h j

/-! ### HindsightExperienceReplayBuffer -/

/-- One record of the underlying Transition Store, as appended by the base
class `push`. Field order follows the positional arguments of `push`. -/
structure StoreEntry where
  state : List ℚ
  action : Nat
  reward : ℚ
  next_state : List ℚ
  curr_available_actions : Nat
  next_available_actions : Nat
  action_space : Nat
  done : Bool
  cost : Option ℚ
deriving DecidableEq, Repr

/-- One entry of the pending episode trajectory: the tuple
`(state, action, next_state, curr_available_actions,
next_available_actions, action_space, done, cost)` appended by `push`
(note: the original reward is not recorded). `state` and `next_state` are
heap references, since the trajectory holds the tensor objects themselves. -/
structure HERTransition where
  state : Nat
  action : Nat
  next_state : Nat
  curr_available_actions : Nat
  next_available_actions : Nat
  action_space : Nat
  done : Bool
  cost : Option ℚ
deriving DecidableEq, Repr

/-- The hindsight buffer's own fields: `_goal_dim`, `_reward_fn`
(`none` result = the function raised), `_done_fn` (optional), and the
pending episode `_trajectory`. -/
structure HindsightExperienceReplayBuffer where
  goal_dim : Nat
  reward_fn : List ℚ → Nat → Option ℚ
  done_fn : Option (List ℚ → Nat → Bool)
  trajectory : List HERTransition

/-- Modelled from the spec: the base-class
`FIFOOffPolicyReplayBuffer.push` (not part of the sources) appends the
transition verbatim to the append-only Transition Store; it performs no
relabeling and does not touch the episode trajectory. The store is kept
here as the chronological log of pushes (capacity-bounded eviction is not
modelled; the claims quantify over pushes, not retained entries). -/
def fifoPush (store : List StoreEntry) (e : StoreEntry) : List StoreEntry :=
  store ++ [e]

/-- Result of the relabeling pass: final heap, final store, and the
exception (if any) that aborted the pass. -/
structure RelabelResult where
  heap : Heap
  store : List StoreEntry
  err : Option PError

/-- The `for ... in self._trajectory` loop of
`HindsightExperienceReplayBuffer.push` under `done`: for each buffered
transition, overwrite the goal suffix of `state` and `next_state` with
`additional_goal` (the view `next_state[:-goal_dim]` of the episode's
final next-state tensor `fRef`, re-read at each use), recompute the reward
via `reward_fn` and the done flag via `done_fn` (falling back to the
original done flag), and push the relabeled transition via the base-class
`push`. The first exception aborts the loop, keeping mutations made so
far. -/
def relabelLoop (gd : Nat) (rf : List ℚ → Nat → Option ℚ)
    (df : Option (List ℚ → Nat → Bool)) (fRef : Nat) :
    Heap → List StoreEntry → List HERTransition → RelabelResult
  | h, st, [] => ⟨h, st, none⟩
  | h, st, e :: rest =>
    match pySetSuffix (h e.state) gd (pyDropLast (h fRef) gd) with
    | none => ⟨h, st, some PError.sliceShapeMismatch⟩
    | some s' =>
      let h1 := hupdate h e.state s'
      match pySetSuffix (h1 e.next_state) gd (pyDropLast (h1 fRef) gd) with
      | none => ⟨h1, st, some PError.sliceShapeMismatch⟩
      | some ns' =>
        let h2 := hupdate h1 e.next_state ns'
        match rf (h2 e.state) e.action with
        | none => ⟨h2, st, some PError.rewardFnRaised⟩
        | some r =>
          let d : Bool :=
            match df with
            | none => e.done
            | some g => g (h2 e.state) e.action
          relabelLoop gd rf df fRef h2
            (fifoPush st
              ⟨h2 e.state, e.action, r, h2 e.next_state,
                e.curr_available_actions, e.next_available_actions,
                e.action_space, d, e.cost⟩)
            rest

/-- Result of `HindsightExperienceReplayBuffer.push`: final heap, final
buffer (trajectory), final store, and the propagated exception if one was
raised. -/
structure PushResult where
  heap : Heap
  buffer : HindsightExperienceReplayBuffer
  store : List StoreEntry
  err : Option PError

/-- `HindsightExperienceReplayBuffer.push`: push the original transition
verbatim into the store, append it to the pending episode trajectory, and
if `done` run the relabeling pass over the whole trajectory (including the
transition just appended) and then clear the trajectory. An exception in
the relabeling pass propagates, leaving the trajectory uncleared and the
mutations/pushes made so far in place. -/
def HindsightExperienceReplayBuffer.push
    (b : HindsightExperienceReplayBuffer) (h : Heap) (store : List StoreEntry)
    (state : Nat) (action : Nat) (reward : ℚ) (next_state : Nat)
    (curr_available_actions next_available_actions action_space : Nat)
    (done : Bool) (cost : Option ℚ) : PushResult :=
  let store1 := fifoPush store
    ⟨h state, action, reward, h next_state, curr_available_actions,
      next_available_actions, action_space, done, cost⟩
  let traj1 := b.trajectory ++
    [⟨state, action, next_state, curr_available_actions,
      next_available_actions, action_space, done, cost⟩]
  if done then
    let res := relabelLoop b.goal_dim b.reward_fn b.done_fn next_state h store1 traj1
    match res.err with
    | some e => ⟨res.heap, { b with trajectory := traj1 }, res.store, some e⟩
    | none => ⟨res.heap, { b with trajectory := [] }, res.store, none⟩
  else
    ⟨h, { b with trajectory := traj1 }, store1, none⟩

/-- Arguments of one `push` call (tensor arguments as heap references). -/
structure PushArgs where
  state : Nat
  action : Nat
  reward : ℚ
  next_state : Nat
  curr_available_actions : Nat
  next_available_actions : Nat
  action_space : Nat
  done : Bool
  cost : Option ℚ
deriving DecidableEq, Repr

/-- A caller pushing an episode transition-by-transition, stopping at the
first propagated exception. -/
def pushMany (b : HindsightExperienceReplayBuffer) (h : Heap)
    (store : List StoreEntry) : List PushArgs → PushResult
  | [] => ⟨h, b, store, none⟩
  | a :: rest =>
    let r := b.push h store a.state a.action a.reward a.next_state
      a.curr_available_actions a.next_available_actions a.action_space
      a.done a.cost
    match r.err with
    | some _ => r
    | none => pushMany r.buffer r.heap r.store rest

/-- The trajectory entry recorded for one `push` call. -/
def toEntry (a : PushArgs) : HERTransition :=
  ⟨a.state, a.action, a.next_state, a.curr_available_actions,
    a.next_available_actions, a.action_space, a.done, a.cost⟩

/-- The store record of the original (verbatim) push of one call, taken at
heap `h`. -/
def origSnap (h : Heap) (a : PushArgs) : StoreEntry :=
  ⟨h a.state, a.action, a.reward, h a.next_state, a.curr_available_actions,
    a.next_available_actions, a.action_space, a.done, a.cost⟩

/-- The relabeled store record produced for trajectory entry `e` when
every tensor of the episode has length `2 * gd` in the pre-relabel heap
`h`: the goal suffix of both vectors is replaced by
`additional_goal = (h fRef).take gd`, reward is recomputed by `rf`, and
the done flag by `df` if supplied. -/
def relabSnap (gd : Nat) (rf : List ℚ → Nat → Option ℚ)
    (df : Option (List ℚ → Nat → Bool)) (h : Heap) (fRef : Nat)
    (e : HERTransition) : StoreEntry :=
  let ag := pyDropLast (h fRef) gd
  let s := (h e.state).take gd ++ ag
  let ns := (h e.next_state).take gd ++ ag
  ⟨s, e.action, (rf s e.action).getD 0, ns,
    e.curr_available_actions, e.next_available_actions, e.action_space,
    (match df with | none => e.done | some g => g s e.action), e.cost⟩

/-- Whether the relabeling loop writes heap reference `j` while processing
trajectory `traj`. -/
def writesRef (traj : List HERTransition) (j : Nat) : Bool :=
  traj.any (fun e => j == e.state || j == e.next_state)

/-! ### ProximalPolicyOptimization.preprocess_replay_buffer -/

/-- The exact dynamic type of a replay buffer, as tested by
`type(replay_buffer) is OnPolicyReplayBuffer`. -/
inductive BufferKind where
  | onPolicy
  | fifoOffPolicy
  | other
deriving DecidableEq, Repr

/-- An `OnPolicyTransition` of the on-policy replay buffer: the base
fields plus the annotation fields written by `preprocess_replay_buffer`
(`none` until annotated). States and actions are abstract (`S`, `A`);
the critic and actor are modelled as functions on them. -/
structure OnPolicyTransition (S A : Type) where
  state : S
  action : A
  reward : ℚ
  next_state : S
  done : Bool
  gae : Option ℚ := none
  lam_return : Option ℚ := none
  action_probs : Option ℚ := none
deriving DecidableEq, Repr

/-- A replay buffer as seen by `preprocess_replay_buffer`: its exact
dynamic type and its memory. -/
structure PPOReplayBuffer (S A : Type) where
  kind : BufferKind
  memory : List (OnPolicyTransition S A)
deriving DecidableEq, Repr

/-- The float value of `(~done)` on a boolean tensor: `1 - done`. -/
def boolNotToRat (d : Bool) : ℚ :=
  if d then 0 else 1

/-- The backward annotation loop of `preprocess_replay_buffer`, running
over `reversed(memory)` with the `gae` accumulator and `next_value`:

    td_error = reward + γ · next_value · (~done) − V(s)
    gae      = td_error + γ · λ · (~done) · gae
    transition.gae         = gae
    transition.lam_return  = gae + V(s)
    transition.action_probs = π(s, a)
    next_value = V(s)

`V` is the composite `critic ∘ history_summarization` and `π` the actor's
`get_action_prob` composed with the representation modules (all detached,
hence plain functions to ℚ). -/
def ppoAnnotate {S A : Type} (γ lam : ℚ) (V : S → ℚ) (π : S → A → ℚ) :
    List (OnPolicyTransition S A) → ℚ → ℚ → List (OnPolicyTransition S A)
  | [], _, _ => []
  | t :: rest, gae0, next_value =>
    let td := t.reward + γ * next_value * boolNotToRat t.done - V t.state
    let g := td + γ * lam * boolNotToRat t.done * gae0
    { t with gae := some g, lam_return := some (g + V t.state),
             action_probs := some (π t.state t.action) }
      :: ppoAnnotate γ lam V π rest g (V t.state)

/-- `ProximalPolicyOptimization.preprocess_replay_buffer`: asserts that
the buffer's exact type is `OnPolicyReplayBuffer` and that its memory is
non-empty, then annotates every transition by the backward pass seeded
with `gae = 0` and `next_value = V(memory[-1].next_state)`. -/
def preprocessReplayBuffer {S A : Type} (γ lam : ℚ) (V : S → ℚ)
    (π : S → A → ℚ) (rb : PPOReplayBuffer S A) :
    Except PError (PPOReplayBuffer S A) :=
  if rb.kind = BufferKind.onPolicy then
    match rb.memory.getLast? with
    | none => Except.error PError.assertionError
    | some last =>
      Except.ok { rb with
        memory :=
          (ppoAnnotate γ lam V π rb.memory.reverse 0 (V last.next_state)).reverse }
  else Except.error PError.assertionError

/-- Specification (from the claim's words) of `next_value` at reverse
position `i`: the bootstrap value for the most recent transition, and
`V(state)` of the previously visited (more recent) transition afterwards.
`rev` is the memory in reverse chronological order, `d` a default
transition (irrelevant for `i < rev.length`). -/
def nextValueSpec {S A : Type} (V : S → ℚ) (nv0 : ℚ)
    (rev : List (OnPolicyTransition S A)) (d : OnPolicyTransition S A) :
    Nat → ℚ
  | 0 => nv0
  | i + 1 => V (rev.getD i d).state

/-- Specification (from the claim's words) of the TD error at reverse
position `i`: `reward + γ · next_value · (1 − done) − V(s)`. -/
def tdErrorSpec {S A : Type} (γ : ℚ) (V : S → ℚ) (nv0 : ℚ)
    (rev : List (OnPolicyTransition S A)) (d : OnPolicyTransition S A)
    (i : Nat) : ℚ :=
  (rev.getD i d).reward
    + γ * nextValueSpec V nv0 rev d i * boolNotToRat (rev.getD i d).done
    - V (rev.getD i d).state

/-- Specification (from the claim's words) of the GAE accumulator at
reverse position `i`, for initial accumulator `gae0`:
`gae_i = td_error_i + γ · λ · (1 − done_i) · gae_{i-1}`. -/
def gaeSpec {S A : Type} (γ lam : ℚ) (V : S → ℚ) (nv0 gae0 : ℚ)
    (rev : List (OnPolicyTransition S A)) (d : OnPolicyTransition S A) :
    Nat → ℚ
  | 0 => tdErrorSpec γ V nv0 rev d 0
      + γ * lam * boolNotToRat (rev.getD 0 d).done * gae0
  | i + 1 => tdErrorSpec γ V nv0 rev d (i + 1)
      + γ * lam * boolNotToRat (rev.getD (i + 1) d).done
        * gaeSpec γ lam V nv0 gae0 rev d i

/-! ### ProximalPolicyOptimization._actor_loss

Scalar tensors are modelled as a rational value together with a `live`
flag recording attachment to the autograd graph; `detach()` clears the
flag and every arithmetic operation propagates it. -/

/-- A scalar tensor element: value plus autograd-graph attachment. -/
structure TValue where
  val : ℚ
  live : Bool
deriving DecidableEq, Repr

/-- `tensor.detach()`: same value, detached from the graph. -/
def TValue.detach (t : TValue) : TValue := ⟨t.val, false⟩

/-- Elementwise `torch.div`. -/
def TValue.div (a b : TValue) : TValue := ⟨a.val / b.val, a.live || b.live⟩

/-- Elementwise multiplication. -/
def TValue.mul (a b : TValue) : TValue := ⟨a.val * b.val, a.live || b.live⟩

/-- Elementwise negation. -/
def TValue.neg (a : TValue) : TValue := ⟨-a.val, a.live⟩

/-- `torch.clamp(·, min := lo, max := hi)` on one element. -/
def TValue.clampT (lo hi : ℚ) (a : TValue) : TValue :=
  ⟨min (max a.val lo) hi, a.live⟩

/-- Elementwise `torch.min`. -/
def TValue.minT (a b : TValue) : TValue :=
  ⟨min a.val b.val, a.live || b.live⟩

/-- `torch.sum` over a 1-D tensor. -/
def tvSum (l : List TValue) : TValue :=
  ⟨(l.map TValue.val).sum, l.any TValue.live⟩

/-- The actor's `get_action_prob` output on the batch: the current
policy's probabilities for the taken actions, attached to the autograd
graph (`live = true`). -/
def actorGetActionProb (probsNew : List ℚ) : List TValue :=
  probsNew.map (fun p => ⟨p, true⟩)

/-- `batch.action_probs`: the action probabilities stored during
preprocessing, detached there (`live = false`). -/
def storedActionProbs (probsOld : List ℚ) : List TValue :=
  probsOld.map (fun p => ⟨p, false⟩)

/-- The tensor handed to `torch.distributions.Categorical(...)` for the
entropy bonus: `action_probs.detach()` in the source. -/
def actorLossEntropyArg (probsNew : List ℚ) : List TValue :=
  (actorGetActionProb probsNew).map TValue.detach

/-- `ProximalPolicyOptimization._actor_loss`: clipped surrogate plus
entropy bonus. `H` is the entropy functional of
`torch.distributions.Categorical` (it involves real logarithms, so it is
kept as a parameter of the embedding); its output tensor is live exactly
when its input is. `probsNew` are the current policy's probabilities for
the batch actions, `probsOld` the stored `batch.action_probs`, `gaes` the
stored (detached) advantage estimates. -/
def actorLoss (H : List ℚ → ℚ) (eps entropyScale : ℚ)
    (probsNew probsOld gaes : List ℚ) : TValue :=
  let action_probs := actorGetActionProb probsNew
  let action_probs_old := storedActionProbs probsOld
  let r_thelta := List.zipWith TValue.div action_probs action_probs_old
  let clip := r_thelta.map (TValue.clampT (1 - eps) (1 + eps))
  let gaeT : List TValue := gaes.map (fun g => ⟨g, false⟩)
  let surrogate := tvSum
    ((List.zipWith TValue.minT (List.zipWith TValue.mul r_thelta gaeT)
      (List.zipWith TValue.mul clip gaeT)).map TValue.neg)
  let entArg := actorLossEntropyArg probsNew
  let entropy : TValue := ⟨H (entArg.map TValue.val), entArg.any TValue.live⟩
  ⟨surrogate.val - entropyScale * entropy.val, surrogate.live || entropy.live⟩

/-! ### Concrete fixtures used to instantiate the theorems -/

/-- A hindsight buffer with `goal_dim = 1` and a constant reward. -/
def bufGd1 : HindsightExperienceReplayBuffer :=
  ⟨1, fun _ _ => some 7, none, []⟩

/-- A hindsight buffer with `goal_dim = 3`. -/
def bufGd3 : HindsightExperienceReplayBuffer :=
  ⟨3, fun _ _ => some 7, none, []⟩

/-- A hindsight buffer whose `reward_fn` always raises. -/
def bufRaise : HindsightExperienceReplayBuffer :=
  ⟨1, fun _ _ => none, none, []⟩

/-- A heap with two length-2 tensors at references 0 and 1. -/
def heap24 : Heap :=
  fun j => if j = 0 then [1, 2] else if j = 1 then [3, 4] else [5, 6]

/-- A heap of length-2 tensors everywhere. -/
def heapPairs : Heap :=
  fun j => [(j : ℚ), (j : ℚ) + 10]

/-- A heap of length-3 tensors everywhere. -/
def heapTriples : Heap :=
  fun j => [(j : ℚ), (j : ℚ) + 1, (j : ℚ) + 2]

/-- A one-transition `done = false` prefix of an episode. -/
def preW : List PushArgs := [⟨0, 1, 5, 1, 0, 0, 0, false, none⟩]

/-- The terminating transition of the fixture episode. -/
def lastW : PushArgs := ⟨1, 2, 6, 2, 0, 0, 0, true, none⟩

/-- A two-transition on-policy memory over rational states. -/
def memW : List (OnPolicyTransition ℚ ℕ) :=
  [⟨10, 0, 1, 11, false, none, none, none⟩,
   ⟨11, 1, 2, 12, true, none, none, none⟩]

/-- An on-policy replay buffer holding `memW`. -/
def rbW : PPOReplayBuffer ℚ ℕ := ⟨BufferKind.onPolicy, memW⟩

/-- A concrete state-value function. -/
def vW : ℚ → ℚ := fun s => s / 10

/-- A concrete policy-probability function. -/
def piW : ℚ → ℕ → ℚ := fun s a => s + a

/-- A default transition for `getD` instantiations. -/
def dW : OnPolicyTransition ℚ ℕ := ⟨0, 0, 0, 0, false, none, none, none⟩

/-! ### Helper lemmas -/

theorem take_append_of_length (l m : List ℚ) (n : Nat) (h : l.length = n) :
    (l ++ m).take n = l := by
  subst h
  exact List.take_left l m

theorem length_take_2gd (l : List ℚ) (gd : Nat) (hl : l.length = 2 * gd) :
    (l.take gd).length = gd := by
  simp [List.length_take, hl]
  omega

theorem pyDropLast_eq_take (l : List ℚ) (gd : Nat) (hgd : 0 < gd)
    (hl : l.length = 2 * gd) : pyDropLast l gd = l.take gd := by
  unfold pyDropLast
  have h0 : ¬ gd = 0 := Nat.pos_iff_ne_zero.mp hgd
  have h1 : l.length - gd = gd := by omega
  simp [h0, h1]

theorem pySetSuffix_exact (l v : List ℚ) (gd : Nat) (hgd : 0 < gd)
    (hl : l.length = 2 * gd) (hv : v.length = gd) :
    pySetSuffix l gd v = some (l.take gd ++ v) := by
  have h0 : ¬ gd = 0 := Nat.pos_iff_ne_zero.mp hgd
  have hg : 2 * gd - gd = gd := by omega
  simp only [pySetSuffix, pySuffixStart, h0, if_false, hl, hg, hv, if_true]

theorem hupdate_eval (h : Heap) (i : Nat) (v : List ℚ) (j : Nat) :
    hupdate h i v j = if j = i then v else h j := rfl

theorem writesRef_cons (e : HERTransition) (rest : List HERTransition)
    (j : Nat) :
    writesRef (e :: rest) j
      = ((j == e.state || j == e.next_state) || writesRef rest j) := by
  simp [writesRef, List.any_cons]

/-- Characterization of the relabeling loop when every tensor of the
episode (and the final next-state tensor `fRef`) has length `2 * goal_dim`
and `reward_fn` never raises: the loop completes, appends exactly one
relabeled record per trajectory entry (in order), and rewrites the goal
suffix of every written tensor to `additional_goal = (h fRef).take gd`,
leaving every other tensor untouched. -/
theorem relabelLoop_char (gd : Nat) (rf : List ℚ → Nat → Option ℚ)
    (df : Option (List ℚ → Nat → Bool)) (fRef : Nat) (hgd : 0 < gd)
    (hrf : ∀ s a, (rf s a).isSome) :
    ∀ (traj : List HERTransition) (h : Heap) (st : List StoreEntry),
      (h fRef).length = 2 * gd →
      (∀ e ∈ traj, (h e.state).length = 2 * gd ∧
        (h e.next_state).length = 2 * gd) →
      (relabelLoop gd rf df fRef h st traj).err = none ∧
      (relabelLoop gd rf df fRef h st traj).store
        = st ++ traj.map (relabSnap gd rf df h fRef) ∧
      ∀ j, (relabelLoop gd rf df fRef h st traj).heap j
        = if writesRef traj j then (h j).take gd ++ (h fRef).take gd
          else h j := by
  intro traj
  induction traj with
  | nil =>
    intro h st hf hlen
    refine ⟨rfl, by simp [relabelLoop], ?_⟩
    intro j
    simp [relabelLoop, writesRef]
  | cons e rest ih =>
    intro h st hf hlen
    have hes : (h e.state).length = 2 * gd :=
      (hlen e (List.mem_cons_self e rest)).1
    have hen : (h e.next_state).length = 2 * gd :=
      (hlen e (List.mem_cons_self e rest)).2
    have hagd : pyDropLast (h fRef) gd = (h fRef).take gd :=
      pyDropLast_eq_take _ _ hgd hf
    have hagl : ((h fRef).take gd).length = gd := length_take_2gd _ _ hf
    have hw1 : pySetSuffix (h e.state) gd (pyDropLast (h fRef) gd)
        = some ((h e.state).take gd ++ (h fRef).take gd) := by
      rw [hagd]
      exact pySetSuffix_exact _ _ _ hgd hes hagl
    simp only [relabelLoop, hw1]
    set h1 : Heap :=
      hupdate h e.state ((h e.state).take gd ++ (h fRef).take gd) with hh1
    have h1j : ∀ j, h1 j =
        if j = e.state then (h e.state).take gd ++ (h fRef).take gd
        else h j := by
      intro j
      rw [hh1, hupdate_eval]
    have h1take : ∀ j, (h1 j).take gd = (h j).take gd := by
      intro j
      rw [h1j]
      by_cases hj : j = e.state
      · rw [if_pos hj, take_append_of_length _ _ _ (length_take_2gd _ _ hes),
          hj]
      · rw [if_neg hj]
    have h1f_len : (h1 fRef).length = 2 * gd := by
      rw [h1j]
      by_cases hj : fRef = e.state
      · rw [if_pos hj]
        simp [List.length_append, length_take_2gd _ _ hes, hagl]
        omega
      · rw [if_neg hj]
        exact hf
    have h1n_len : (h1 e.next_state).length = 2 * gd := by
      rw [h1j]
      by_cases hj : e.next_state = e.state
      · rw [if_pos hj]
        simp [List.length_append, length_take_2gd _ _ hes, hagl]
        omega
      · rw [if_neg hj]
        exact hen
    have hag1 : pyDropLast (h1 fRef) gd = (h fRef).take gd := by
      rw [pyDropLast_eq_take _ _ hgd h1f_len, h1take]
    have hw2 : pySetSuffix (h1 e.next_state) gd (pyDropLast (h1 fRef) gd)
        = some ((h e.next_state).take gd ++ (h fRef).take gd) := by
      rw [hag1, pySetSuffix_exact _ _ _ hgd h1n_len hagl, h1take]
    simp only [hw2]
    set h2 : Heap :=
      hupdate h1 e.next_state
        ((h e.next_state).take gd ++ (h fRef).take gd) with hh2
    have h2j : ∀ j, h2 j =
        if j = e.state ∨ j = e.next_state then
          (h j).take gd ++ (h fRef).take gd
        else h j := by
      intro j
      rw [hh2, hupdate_eval]
      by_cases hn : j = e.next_state
      · rw [if_pos hn, if_pos (Or.inr hn), hn]
      · rw [if_neg hn, h1j]
        by_cases hs : j = e.state
        · rw [if_pos hs, if_pos (Or.inl hs), hs]
        · rw [if_neg hs, if_neg (by tauto)]
    have h2s : h2 e.state = (h e.state).take gd ++ (h fRef).take gd := by
      rw [h2j, if_pos (Or.inl rfl)]
    have h2n : h2 e.next_state
        = (h e.next_state).take gd ++ (h fRef).take gd := by
      rw [h2j, if_pos (Or.inr rfl)]
    have h2take : ∀ j, (h2 j).take gd = (h j).take gd := by
      intro j
      rw [h2j]
      by_cases hj : j = e.state ∨ j = e.next_state
      · rw [if_pos hj]
        rcases hj with hj | hj <;>
          rw [take_append_of_length _ _ _
            (length_take_2gd _ _ (by rw [hj]; first | exact hes | exact hen))]
      · rw [if_neg hj]
    have h2len : ∀ j, (h j).length = 2 * gd → (h2 j).length = 2 * gd := by
      intro j hlj
      rw [h2j]
      by_cases hj : j = e.state ∨ j = e.next_state
      · rw [if_pos hj]
        simp [List.length_append, length_take_2gd _ _ hlj, hagl]
        omega
      · rw [if_neg hj]
        exact hlj
    have h2f_len : (h2 fRef).length = 2 * gd := h2len fRef hf
    obtain ⟨r, hr⟩ := Option.isSome_iff_exists.mp (hrf (h2 e.state) e.action)
    simp only [hr]
    have hlen2 : ∀ e' ∈ rest, (h2 e'.state).length = 2 * gd ∧
        (h2 e'.next_state).length = 2 * gd := by
      intro e' me'
      have := hlen e' (List.mem_cons_of_mem e me')
      exact ⟨h2len _ this.1, h2len _ this.2⟩
    obtain ⟨ih1, ih2, ih3⟩ := ih h2 _ h2f_len hlen2
    have hsnapRest : rest.map (relabSnap gd rf df h2 fRef)
        = rest.map (relabSnap gd rf df h fRef) := by
      apply List.map_congr_left
      intro e' _
      have h2ag : pyDropLast (h2 fRef) gd = pyDropLast (h fRef) gd := by
        rw [pyDropLast_eq_take _ _ hgd h2f_len, h2take, hagd]
      simp only [relabSnap, h2ag, h2take]
    have hp : (⟨h2 e.state, e.action, r, h2 e.next_state,
          e.curr_available_actions, e.next_available_actions, e.action_space,
          (match df with
            | none => e.done
            | some g => g (h2 e.state) e.action), e.cost⟩ : StoreEntry)
        = relabSnap gd rf df h fRef e := by
      simp only [relabSnap, hagd, ← h2s, ← h2n, hr]
      rfl
    refine ⟨ih1, ?_, ?_⟩
    · rw [ih2, hsnapRest, List.map_cons, hp]
      simp [fifoPush]
    · intro j
      rw [ih3 j, h2take j, h2take fRef, writesRef_cons]
      by_cases hwr : writesRef rest j
      · simp [hwr]
      · rw [if_neg hwr, h2j j]
        by_cases hs : j = e.state
        · simp [hs]
        · by_cases hn : j = e.next_state
          · simp [hn]
          · simp [hs, hn, hwr]

/-- A `push` with `done = false` only appends: one verbatim store record,
one pending-trajectory entry, no heap mutation, no exception. -/
theorem herPush_notdone (b : HindsightExperienceReplayBuffer) (h : Heap)
    (store : List StoreEntry) (state action : Nat) (reward : ℚ)
    (next_state cav nav asp : Nat) (cost : Option ℚ) :
    b.push h store state action reward next_state cav nav asp false cost
      = ⟨h,
          { b with trajectory := b.trajectory
              ++ [⟨state, action, next_state, cav, nav, asp, false, cost⟩] },
          store ++ [⟨h state, action, reward, h next_state, cav, nav, asp,
            false, cost⟩],
          none⟩ := rfl

/-- Characterization of a `push` with `done = true` under shape-consistent
inputs (every episode tensor of length `2 * goal_dim`) and a non-raising
`reward_fn`: no exception, trajectory cleared, the store extended by the
verbatim record followed by one relabeled record per trajectory entry in
forward order, and the goal suffix of every episode tensor overwritten in
place with `additional_goal = (h next_state).take goal_dim`. -/
theorem herPush_done_char (b : HindsightExperienceReplayBuffer) (h : Heap)
    (store : List StoreEntry) (state action : Nat) (reward : ℚ)
    (next_state cav nav asp : Nat) (cost : Option ℚ)
    (hgd : 0 < b.goal_dim)
    (hrf : ∀ s a, (b.reward_fn s a).isSome)
    (hlen : ∀ e ∈ b.trajectory
        ++ [⟨state, action, next_state, cav, nav, asp, true, cost⟩],
      (h e.state).length = 2 * b.goal_dim ∧
      (h e.next_state).length = 2 * b.goal_dim) :
    (b.push h store state action reward next_state cav nav asp true cost).err
        = none ∧
    (b.push h store state action reward next_state cav nav asp true
        cost).buffer = { b with trajectory := [] } ∧
    (b.push h store state action reward next_state cav nav asp true
        cost).store
      = store ++ (⟨h state, action, reward, h next_state, cav, nav, asp,
          true, cost⟩ : StoreEntry)
        :: (b.trajectory
            ++ ([⟨state, action, next_state, cav, nav, asp, true, cost⟩] :
              List HERTransition)).map
          (relabSnap b.goal_dim b.reward_fn b.done_fn h next_state) ∧
    ∀ j, (b.push h store state action reward next_state cav nav asp true
        cost).heap j
      = if writesRef (b.trajectory
            ++ ([⟨state, action, next_state, cav, nav, asp, true, cost⟩] :
              List HERTransition)) j
        then (h j).take b.goal_dim ++ (h next_state).take b.goal_dim
        else h j := by
  have hf : (h next_state).length = 2 * b.goal_dim :=
    (hlen (⟨state, action, next_state, cav, nav, asp, true, cost⟩ :
      HERTransition) (by simp)).2
  obtain ⟨c1, c2, c3⟩ :=
    relabelLoop_char b.goal_dim b.reward_fn b.done_fn next_state hgd hrf
      (b.trajectory
        ++ ([⟨state, action, next_state, cav, nav, asp, true, cost⟩] :
          List HERTransition))
      h
      (store ++ ([⟨h state, action, reward, h next_state, cav, nav, asp,
        true, cost⟩] : List StoreEntry))
      hf hlen
  simp only [HindsightExperienceReplayBuffer.push, fifoPush, if_true]
  simp only [c1]
  refine ⟨by trivial, by trivial, ?_, ?_⟩
  · rw [c2]
    simp
  · intro j
    exact c3 j

/-- Pushing a sequence of `done = false` transitions only accumulates:
heap untouched, trajectory extended entry-by-entry, store extended by the
verbatim records, no exception. -/
theorem pushMany_notdone (args : List PushArgs) :
    ∀ (b : HindsightExperienceReplayBuffer) (h : Heap)
      (store : List StoreEntry),
      (∀ a ∈ args, a.done = false) →
      pushMany b h store args
        = ⟨h, { b with trajectory := b.trajectory ++ args.map toEntry },
            store ++ args.map (origSnap h), none⟩ := by
  induction args with
  | nil =>
    intro b h store _
    simp [pushMany]
  | cons a rest ih =>
    intro b h store hnd
    have hd : a.done = false := hnd a (List.mem_cons_self a rest)
    simp only [pushMany, hd, herPush_notdone]
    rw [ih _ h _ (fun a' ma' => hnd a' (List.mem_cons_of_mem a ma'))]
    simp [toEntry, origSnap, hd]

/-- Length of the annotated list equals the input length. -/
theorem ppoAnnotate_length {S A : Type} (γ lam : ℚ) (V : S → ℚ)
    (π : S → A → ℚ) :
    ∀ (rev : List (OnPolicyTransition S A)) (gae0 nv : ℚ),
      (ppoAnnotate γ lam V π rev gae0 nv).length = rev.length := by
  intro rev
  induction rev with
  | nil => intro gae0 nv; rfl
  | cons t rest ih => intro gae0 nv; simp [ppoAnnotate, ih]

/-- Shift lemma for the specified GAE recurrence: position `i + 1` of
`t :: rest` equals position `i` of `rest` with the accumulator advanced to
position-0 value and `next_value` advanced to `V t.state`. -/
theorem gaeSpec_cons {S A : Type} (γ lam : ℚ) (V : S → ℚ) (nv0 gae0 : ℚ)
    (t : OnPolicyTransition S A) (rest : List (OnPolicyTransition S A))
    (d : OnPolicyTransition S A) :
    ∀ i, gaeSpec γ lam V nv0 gae0 (t :: rest) d (i + 1)
      = gaeSpec γ lam V (V t.state)
          (gaeSpec γ lam V nv0 gae0 (t :: rest) d 0) rest d i := by
  intro i
  induction i with
  | zero =>
    simp [gaeSpec, tdErrorSpec, nextValueSpec, List.getD_cons_succ,
      List.getD_cons_zero]
  | succ i ihi =>
    have h1 : gaeSpec γ lam V nv0 gae0 (t :: rest) d (i + 1 + 1)
        = tdErrorSpec γ V nv0 (t :: rest) d (i + 1 + 1)
          + γ * lam * boolNotToRat ((t :: rest).getD (i + 1 + 1) d).done
            * gaeSpec γ lam V nv0 gae0 (t :: rest) d (i + 1) := rfl
    have h2 : gaeSpec γ lam V (V t.state)
          (gaeSpec γ lam V nv0 gae0 (t :: rest) d 0) rest d (i + 1)
        = tdErrorSpec γ V (V t.state) rest d (i + 1)
          + γ * lam * boolNotToRat (rest.getD (i + 1) d).done
            * gaeSpec γ lam V (V t.state)
              (gaeSpec γ lam V nv0 gae0 (t :: rest) d 0) rest d i := rfl
    rw [h1, h2, ihi]
    simp [tdErrorSpec, nextValueSpec, List.getD_cons_succ]

/-- The annotation loop computes exactly the specified recurrence: entry
`i` of the output (over the reversed memory) carries
`gae = gaeSpec … i`, `lam_return = gae + V(s_i)`,
`action_probs = π(s_i, a_i)`, with all original fields preserved. -/
theorem ppoAnnotate_getD {S A : Type} (γ lam : ℚ) (V : S → ℚ)
    (π : S → A → ℚ) (d : OnPolicyTransition S A) :
    ∀ (rev : List (OnPolicyTransition S A)) (gae0 nv : ℚ) (i : Nat),
      i < rev.length →
      (ppoAnnotate γ lam V π rev gae0 nv).getD i d
        = { rev.getD i d with
            gae := some (gaeSpec γ lam V nv gae0 rev d i),
            lam_return := some (gaeSpec γ lam V nv gae0 rev d i
              + V (rev.getD i d).state),
            action_probs := some (π (rev.getD i d).state
              (rev.getD i d).action) } := by
  intro rev
  induction rev with
  | nil =>
    intro gae0 nv i hi
    simp at hi
  | cons t rest ih =>
    intro gae0 nv i hi
    match i with
    | 0 =>
      simp [ppoAnnotate, List.getD_cons_zero, gaeSpec, tdErrorSpec,
        nextValueSpec]
    | Nat.succ i =>
      have hi' : i < rest.length := by
        simp at hi
        omega
      rw [gaeSpec_cons]
      simp only [ppoAnnotate, List.getD_cons_succ]
      rw [ih _ _ i hi']
      simp [gaeSpec, tdErrorSpec, nextValueSpec]

/-! ### Claim theorems -/

/-- Claim C2: for every non-empty on-policy replay buffer,
`preprocess_replay_buffer` walks the transitions in reverse chronological
order with the `gae` accumulator initialized to `0` and `next_value`
initialized to `V(next_state)` of the most recent transition, and for each
transition stores `gae` satisfying
`gae_i = td_error_i + γ·λ·(1 − done_i)·gae_{i-1}` with
`td_error_i = reward_i + γ·next_value_i·(1 − done_i) − V(s_i)`, stores
`lam_return = gae + V(s_i)` exactly, stores the current-policy action
probability `π(s_i, a_i)`, and advances `next_value` to `V(s_i)`. -/
theorem claim_C2_preprocess_gae_lambda_return {S A : Type} (γ lam : ℚ)
    (V : S → ℚ) (π : S → A → ℚ) (rb : PPOReplayBuffer S A)
    (last d : OnPolicyTransition S A)
    (hk : rb.kind = BufferKind.onPolicy)
    (hl : rb.memory.getLast? = some last) :
    ∃ out, preprocessReplayBuffer γ lam V π rb = Except.ok out ∧
      out.memory.length = rb.memory.length ∧
      ∀ i, i < rb.memory.length →
        out.memory.reverse.getD i d
          = { rb.memory.reverse.getD i d with
              gae := some (gaeSpec γ lam V (V last.next_state) 0
                rb.memory.reverse d i),
              lam_return := some (gaeSpec γ lam V (V last.next_state) 0
                  rb.memory.reverse d i
                + V (rb.memory.reverse.getD i d).state),
              action_probs := some (π (rb.memory.reverse.getD i d).state
                (rb.memory.reverse.getD i d).action) } := by
  have hpre : preprocessReplayBuffer γ lam V π rb
      = Except.ok { rb with
          memory := (ppoAnnotate γ lam V π rb.memory.reverse 0
            (V last.next_state)).reverse } := by
    simp [preprocessReplayBuffer, hk, hl]
  refine ⟨_, hpre, ?_, ?_⟩
  · simp [ppoAnnotate_length]
  · intro i hi
    have h1 : ({ rb with
          memory := (ppoAnnotate γ lam V π rb.memory.reverse 0
            (V last.next_state)).reverse } : PPOReplayBuffer S A).memory.reverse
        = ppoAnnotate γ lam V π rb.memory.reverse 0 (V last.next_state) := by
      simp
    rw [h1, ppoAnnotate_getD γ lam V π d rb.memory.reverse 0
      (V last.next_state) i (by simp [hi])]

/-- Claim C9: `preprocess_replay_buffer` fails with an assertion error
exactly when the buffer's dynamic type is not `OnPolicyReplayBuffer` or
its memory is empty, and proceeds exactly when both preconditions hold. -/
theorem claim_C9_preprocess_preconditions {S A : Type} (γ lam : ℚ)
    (V : S → ℚ) (π : S → A → ℚ) (rb : PPOReplayBuffer S A) :
    (preprocessReplayBuffer γ lam V π rb
        = Except.error PError.assertionError
      ↔ (rb.kind ≠ BufferKind.onPolicy ∨ rb.memory = [])) ∧
    ((∃ out, preprocessReplayBuffer γ lam V π rb = Except.ok out)
      ↔ (rb.kind = BufferKind.onPolicy ∧ rb.memory ≠ [])) := by
  by_cases hk : rb.kind = BufferKind.onPolicy
  · by_cases hm : rb.memory = []
    · constructor
      · simp [preprocessReplayBuffer, hk, hm]
      · simp [preprocessReplayBuffer, hk, hm]
    · obtain ⟨lastv, hl⟩ :=
        Option.isSome_iff_exists.mp (List.getLast?_isSome.mpr hm)
      constructor
      · simp [preprocessReplayBuffer, hk, hl, hm]
      · simp [preprocessReplayBuffer, hk, hl, hm]
  · constructor <;> simp [preprocessReplayBuffer, hk]

/-- The surrogate part of the actor loss, as a plain rational sum. -/
theorem actorLoss_surrogate_val (eps : ℚ) :
    ∀ (pN pO g : List ℚ), pN.length = pO.length → pO.length = g.length →
      (tvSum ((List.zipWith TValue.minT
          (List.zipWith TValue.mul
            (List.zipWith TValue.div (actorGetActionProb pN)
              (storedActionProbs pO))
            (g.map (fun x => (⟨x, false⟩ : TValue))))
          (List.zipWith TValue.mul
            ((List.zipWith TValue.div (actorGetActionProb pN)
              (storedActionProbs pO)).map
                (TValue.clampT (1 - eps) (1 + eps)))
            (g.map (fun x => (⟨x, false⟩ : TValue))))).map TValue.neg)).val
      = -((((pN.zip pO).zip g).map (fun x =>
            min ((x.1.1 / x.1.2) * x.2)
              ((min (max (x.1.1 / x.1.2) (1 - eps)) (1 + eps)) * x.2))).sum)
      := by
  intro pN
  induction pN with
  | nil =>
    intro pO g _ _
    simp [actorGetActionProb, storedActionProbs, tvSum]
  | cons p pNr ih =>
    intro pO g hpo hg
    match pO, g with
    | [], _ => simp at hpo
    | _ :: _, [] => simp at hg
    | q :: pOr, x :: gr =>
      have h1 : pNr.length = pOr.length := by simpa using hpo
      have h2 : pOr.length = gr.length := by simpa using hg
      have := ih pOr gr h1 h2
      simp only [actorGetActionProb, storedActionProbs, List.map_cons,
        List.zipWith_cons_cons, List.zip_cons_cons, tvSum, List.sum_cons,
        TValue.div, TValue.mul, TValue.minT, TValue.neg, TValue.clampT] at this ⊢
      rw [this]
      ring

/-- The actor-loss value as a closed-form rational expression (clipped
surrogate minus entropy bonus over the detached current probabilities). -/
theorem actorLoss_val (H : List ℚ → ℚ) (eps scale : ℚ)
    (pN pO g : List ℚ) (hpo : pN.length = pO.length)
    (hg : pO.length = g.length) :
    (actorLoss H eps scale pN pO g).val
      = -((((pN.zip pO).zip g).map (fun x =>
            min ((x.1.1 / x.1.2) * x.2)
              ((min (max (x.1.1 / x.1.2) (1 - eps)) (1 + eps)) * x.2))).sum)
        - scale * H pN := by
  have hent : (actorLossEntropyArg pN).map TValue.val = pN := by
    simp only [actorLossEntropyArg, actorGetActionProb, List.map_map]
    have : (TValue.val ∘ TValue.detach ∘ fun p => (⟨p, true⟩ : TValue))
        = id := rfl
    rw [this, List.map_id]
  unfold actorLoss
  simp only [hent]
  rw [actorLoss_surrogate_val eps pN pO g hpo hg]

/-- Claim C3 counterexample: at the concrete batch probabilities
`[1/2, 1/3]`, the tensor handed to the entropy computation by
`_actor_loss` is not attached to the gradient graph — the source computes
the entropy over `action_probs.detach()`, refuting the claim that the
entropy input is the live distribution. -/
theorem claim_C3_counterexample :
    ¬ ((actorLossEntropyArg [1/2, 1/3]).all (fun t => t.live) = true) := by
  decide

/-- Claim C3 (amended): the entropy bonus is computed over a
gradient-detached copy of the current policy's action probabilities (same
values, `live = false`); detached probabilities appear both as the ratio
denominator (the stored `action_probs`) and as the entropy input, while
the ratio numerator (the actor's fresh `get_action_prob` output) stays
attached to the graph. -/
theorem claim_C3_entropy_input_detached (probsNew probsOld : List ℚ) :
    (actorLossEntropyArg probsNew).map TValue.val = probsNew ∧
    (actorLossEntropyArg probsNew).all (fun t => !t.live) = true ∧
    (actorGetActionProb probsNew).all (fun t => t.live) = true ∧
    (storedActionProbs probsOld).all (fun t => !t.live) = true := by
  refine ⟨?_, ?_, ?_, ?_⟩
  · simp only [actorLossEntropyArg, actorGetActionProb, List.map_map]
    have : (TValue.val ∘ TValue.detach ∘ fun p => (⟨p, true⟩ : TValue))
        = id := rfl
    rw [this, List.map_id]
  · simp [actorLossEntropyArg, actorGetActionProb, List.all_eq_true,
      TValue.detach]
  · simp [actorGetActionProb, List.all_eq_true]
  · simp [storedActionProbs, List.all_eq_true]

/-- Claim C4: the actor loss equals
`−Σ min(r·gae, clip(r, 1−ε, 1+ε)·gae) − scale·H(detached probs)` with
`r = π_new/π_old` (π_old the stored `action_prob`); at `ratio = 2`,
`gae = 1`, `ε = 0.2` the unclipped term is `2`, the clipped term `1.2`,
and the per-sample contribution `min(2, 1.2) = 1.2`; and at `ε = 0`,
`clip(r, 1, 1)·gae = gae` — a valid degenerate configuration. -/
theorem claim_C4_actor_loss_clipped_surrogate (H : List ℚ → ℚ)
    (eps scale : ℚ) (pN pO g : List ℚ) (hpo : pN.length = pO.length)
    (hg : pO.length = g.length) :
    ((actorLoss H eps scale pN pO g).val
      = -((((pN.zip pO).zip g).map (fun x =>
            min ((x.1.1 / x.1.2) * x.2)
              ((min (max (x.1.1 / x.1.2) (1 - eps)) (1 + eps)) * x.2))).sum)
        - scale * H pN) ∧
    (TValue.div ⟨4/5, true⟩ ⟨2/5, false⟩).val = 2 ∧
    (TValue.mul (TValue.div ⟨4/5, true⟩ ⟨2/5, false⟩) ⟨1, false⟩).val = 2 ∧
    (TValue.mul (TValue.clampT (1 - 1/5) (1 + 1/5)
        (TValue.div ⟨4/5, true⟩ ⟨2/5, false⟩)) ⟨1, false⟩).val = 6/5 ∧
    (TValue.minT
        (TValue.mul (TValue.div ⟨4/5, true⟩ ⟨2/5, false⟩) ⟨1, false⟩)
        (TValue.mul (TValue.clampT (1 - 1/5) (1 + 1/5)
          (TValue.div ⟨4/5, true⟩ ⟨2/5, false⟩)) ⟨1, false⟩)).val = 6/5 ∧
    (∀ (r : TValue) (gq : ℚ),
      (TValue.mul (TValue.clampT (1 - 0) (1 + 0) r) ⟨gq, false⟩).val = gq)
    := by
  refine ⟨actorLoss_val H eps scale pN pO g hpo hg, by norm_num [TValue.div],
    by norm_num [TValue.div, TValue.mul],
    by norm_num [TValue.div, TValue.mul, TValue.clampT],
    by norm_num [TValue.div, TValue.mul, TValue.clampT, TValue.minT], ?_⟩
  intro r gq
  simp only [TValue.clampT, TValue.mul]
  have h1 : min (max r.val (1 - 0)) (1 + 0) = 1 := by
    norm_num
  rw [h1, one_mul]

/-! ### Further helper lemmas for the hindsight buffer claims -/

theorem pushMany_single (b : HindsightExperienceReplayBuffer) (h : Heap)
    (store : List StoreEntry) (a : PushArgs) :
    pushMany b h store [a]
      = b.push h store a.state a.action a.reward a.next_state
          a.curr_available_actions a.next_available_actions a.action_space
          a.done a.cost := by
  simp only [pushMany]
  rcases hpr : b.push h store a.state a.action a.reward a.next_state
      a.curr_available_actions a.next_available_actions a.action_space
      a.done a.cost with ⟨hh, bb, ss, ee⟩
  cases ee <;> simp [pushMany]

/-- Pushing `pre ++ [last]` where every element of `pre` has
`done = false` accumulates the `pre` part and then performs the final
push on the accumulated state. -/
theorem pushMany_episode (pre : List PushArgs) :
    ∀ (b : HindsightExperienceReplayBuffer) (h : Heap)
      (store : List StoreEntry) (last : PushArgs),
      (∀ a ∈ pre, a.done = false) →
      pushMany b h store (pre ++ [last])
        = ({ b with trajectory := b.trajectory ++ pre.map toEntry } :
            HindsightExperienceReplayBuffer).push h
            (store ++ pre.map (origSnap h)) last.state last.action
            last.reward last.next_state last.curr_available_actions
            last.next_available_actions last.action_space last.done
            last.cost := by
  induction pre with
  | nil =>
    intro b h store last _
    simp [pushMany_single]
  | cons a pre ih =>
    intro b h store last hnd
    have hd : a.done = false := hnd a (List.mem_cons_self a pre)
    simp only [List.cons_append, pushMany, hd, herPush_notdone,
      List.append_eq]
    rw [ih _ h _ last (fun a' ma' => hnd a' (List.mem_cons_of_mem a ma'))]
    have hta : toEntry a = ⟨a.state, a.action, a.next_state,
        a.curr_available_actions, a.next_available_actions, a.action_space,
        false, a.cost⟩ := by
      simp [toEntry, hd]
    have hsa : origSnap h a = ⟨h a.state, a.action, a.reward,
        h a.next_state, a.curr_available_actions, a.next_available_actions,
        a.action_space, false, a.cost⟩ := by
      simp [origSnap, hd]
    simp [hta, hsa]

/-- If the relabeling loop completes without an exception, it pushed
exactly one store record per trajectory entry. -/
theorem relabelLoop_err_none_length (gd : Nat)
    (rf : List ℚ → Nat → Option ℚ) (df : Option (List ℚ → Nat → Bool))
    (fRef : Nat) :
    ∀ (traj : List HERTransition) (h : Heap) (st : List StoreEntry),
      (relabelLoop gd rf df fRef h st traj).err = none →
      (relabelLoop gd rf df fRef h st traj).store.length
        = st.length + traj.length := by
  intro traj
  induction traj with
  | nil =>
    intro h st _
    simp [relabelLoop]
  | cons e rest ih =>
    intro h st herr
    rw [relabelLoop] at herr ⊢
    rcases hw1 : pySetSuffix (h e.state) gd (pyDropLast (h fRef) gd)
      with _ | s1
    · simp only [hw1] at herr
      simp at herr
    · simp only [hw1] at herr ⊢
      rcases hw2 : pySetSuffix (hupdate h e.state s1 e.next_state) gd
          (pyDropLast (hupdate h e.state s1 fRef) gd) with _ | s2
      · simp only [hw2] at herr
        simp at herr
      · simp only [hw2] at herr ⊢
        rcases hwr : rf (hupdate (hupdate h e.state s1) e.next_state s2
            e.state) e.action with _ | r
        · simp only [hwr] at herr
          simp at herr
        · simp only [hwr] at herr ⊢
          rw [ih _ _ herr]
          simp [fifoPush]
          omega

/-- A `done = true` push that returns without an exception has cleared
the trajectory and pushed `1 + (|trajectory| + 1)` store records. -/
theorem herPush_done_err_none (b : HindsightExperienceReplayBuffer)
    (h : Heap) (store : List StoreEntry) (state action : Nat) (reward : ℚ)
    (next_state cav nav asp : Nat) (cost : Option ℚ)
    (herr : (b.push h store state action reward next_state cav nav asp
      true cost).err = none) :
    (b.push h store state action reward next_state cav nav asp true
      cost).buffer = { b with trajectory := [] } ∧
    (b.push h store state action reward next_state cav nav asp true
      cost).store.length = store.length + 1 + (b.trajectory.length + 1)
    := by
  simp only [HindsightExperienceReplayBuffer.push, fifoPush, if_true]
    at herr ⊢
  rcases hres : (relabelLoop b.goal_dim b.reward_fn b.done_fn next_state h
      (store ++ [⟨h state, action, reward, h next_state, cav, nav, asp,
        true, cost⟩])
      (b.trajectory
        ++ [⟨state, action, next_state, cav, nav, asp, true, cost⟩])).err
    with _ | e
  · simp only [hres] at herr ⊢
    refine ⟨by trivial, ?_⟩
    rw [relabelLoop_err_none_length _ _ _ _ _ _ _ hres]
    simp
  · simp only [hres] at herr
    simp at herr

theorem writesRef_of_mem_state (traj : List HERTransition)
    (e : HERTransition) (he : e ∈ traj) : writesRef traj e.state = true :=
  List.any_eq_true.mpr ⟨e, he, by simp⟩

theorem writesRef_of_mem_next (traj : List HERTransition)
    (e : HERTransition) (he : e ∈ traj) :
    writesRef traj e.next_state = true :=
  List.any_eq_true.mpr ⟨e, he, by simp⟩

theorem pyDropLast_eq_nil (l : List ℚ) (k : Nat) (hk : l.length ≤ k) :
    pyDropLast l k = [] := by
  unfold pyDropLast
  split
  · rfl
  · rw [Nat.sub_eq_zero_of_le hk, List.take_zero]

theorem pyDropLast_length (l : List ℚ) (k : Nat) (hk : ¬ k = 0) :
    (pyDropLast l k).length = l.length - k := by
  unfold pyDropLast
  rw [if_neg hk, List.length_take]
  omega

/-- A slice assignment whose source list neither matches the slice length
nor has size 1 raises a shape error. -/
theorem pySetSuffix_none (l v : List ℚ) (k : Nat)
    (hne : ¬ v.length = l.length - pySuffixStart l k)
    (h1 : v.length ≠ 1) : pySetSuffix l k v = none := by
  unfold pySetSuffix
  rw [if_neg hne]
  match v with
  | [] => rfl
  | [x] => exact absurd rfl h1
  | x :: y :: t => rfl

/-- If the relabel loop's very first suffix assignment fails, the loop
aborts immediately: heap and store unchanged, shape error reported. -/
theorem relabelLoop_first_write_fail (gd : Nat)
    (rf : List ℚ → Nat → Option ℚ) (df : Option (List ℚ → Nat → Bool))
    (fRef : Nat) (h : Heap) (st : List StoreEntry) (e : HERTransition)
    (rest : List HERTransition)
    (hfail : pySetSuffix (h e.state) gd (pyDropLast (h fRef) gd) = none) :
    relabelLoop gd rf df fRef h st (e :: rest)
      = ⟨h, st, some PError.sliceShapeMismatch⟩ := by
  simp only [relabelLoop, hfail]

/-- First suffix assignment fails whenever (homogeneously-sized) vectors
have positive length `L` with `L ≠ 2·gd` and `L ≠ gd + 1` (the latter
being torch's size-1 broadcast escape hatch). -/
theorem pySetSuffix_mismatch (l f : List ℚ) (gd L : Nat) (hgd : 0 < gd)
    (hl : l.length = L) (hf : f.length = L) (hL0 : 0 < L)
    (hne2 : L ≠ 2 * gd) (hne1 : L ≠ gd + 1) :
    pySetSuffix l gd (pyDropLast f gd) = none := by
  have hk : ¬ gd = 0 := by omega
  have hv : (pyDropLast f gd).length = L - gd := by
    rw [pyDropLast_length f gd hk, hf]
  apply pySetSuffix_none
  · rw [hv]
    unfold pySuffixStart
    rw [if_neg hk, hl]
    omega
  · rw [hv]
    omega

/-- If `reward_fn` raises on the first relabeled transition (shapes being
consistent), the loop aborts with that exception. -/
theorem relabelLoop_reward_raise (gd : Nat)
    (rf : List ℚ → Nat → Option ℚ) (df : Option (List ℚ → Nat → Bool))
    (fRef : Nat) (h : Heap) (st : List StoreEntry) (e : HERTransition)
    (rest : List HERTransition) (hgd : 0 < gd)
    (hf : (h fRef).length = 2 * gd)
    (hes : (h e.state).length = 2 * gd)
    (hen : (h e.next_state).length = 2 * gd)
    (hraise : rf ((h e.state).take gd ++ (h fRef).take gd) e.action
      = none) :
    (relabelLoop gd rf df fRef h st (e :: rest)).err
      = some PError.rewardFnRaised := by
  have hagd : pyDropLast (h fRef) gd = (h fRef).take gd :=
    pyDropLast_eq_take _ _ hgd hf
  have hagl : ((h fRef).take gd).length = gd := length_take_2gd _ _ hf
  have hw1 : pySetSuffix (h e.state) gd (pyDropLast (h fRef) gd)
      = some ((h e.state).take gd ++ (h fRef).take gd) := by
    rw [hagd]
    exact pySetSuffix_exact _ _ _ hgd hes hagl
  simp only [relabelLoop, hw1]
  set h1 : Heap :=
    hupdate h e.state ((h e.state).take gd ++ (h fRef).take gd) with hh1
  have h1j : ∀ j, h1 j =
      if j = e.state then (h e.state).take gd ++ (h fRef).take gd
      else h j := by
    intro j
    rw [hh1, hupdate_eval]
  have h1take : ∀ j, (h1 j).take gd = (h j).take gd := by
    intro j
    rw [h1j]
    by_cases hj : j = e.state
    · rw [if_pos hj, take_append_of_length _ _ _ (length_take_2gd _ _ hes),
        hj]
    · rw [if_neg hj]
  have h1f_len : (h1 fRef).length = 2 * gd := by
    rw [h1j]
    by_cases hj : fRef = e.state
    · rw [if_pos hj]
      simp [List.length_append, length_take_2gd _ _ hes, hagl]
      omega
    · rw [if_neg hj]
      exact hf
  have h1n_len : (h1 e.next_state).length = 2 * gd := by
    rw [h1j]
    by_cases hj : e.next_state = e.state
    · rw [if_pos hj]
      simp [List.length_append, length_take_2gd _ _ hes, hagl]
      omega
    · rw [if_neg hj]
      exact hen
  have hag1 : pyDropLast (h1 fRef) gd = (h fRef).take gd := by
    rw [pyDropLast_eq_take _ _ hgd h1f_len, h1take]
  have hw2 : pySetSuffix (h1 e.next_state) gd (pyDropLast (h1 fRef) gd)
      = some ((h e.next_state).take gd ++ (h fRef).take gd) := by
    rw [hag1, pySetSuffix_exact _ _ _ hgd h1n_len hagl, h1take]
  simp only [hw2]
  have h2s : hupdate h1 e.next_state
        ((h e.next_state).take gd ++ (h fRef).take gd) e.state
      = (h e.state).take gd ++ (h fRef).take gd := by
    rw [hupdate_eval]
    by_cases hx : e.state = e.next_state
    · rw [if_pos hx, hx]
    · rw [if_neg hx, h1j, if_pos rfl]
  simp only [h2s, hraise]

/-- Claim C1 counterexample: with `goal_dim = 1`, an episode of one
transition with `state = [1, 2]` and `next_state = [3, 4]`, the relabeled
record pushed to the store is `state = [1, 3]` (and the state tensor is
mutated to `[1, 3]` in place): the overwritten suffix is `[3]`, the
element of `next_state[:-1]` (the leading part), not the trailing
`goal_dim` elements `[4]` claimed by the specification. -/
theorem claim_C1_counterexample :
    ((⟨1, fun _ _ => some 7, none, []⟩ :
        HindsightExperienceReplayBuffer).push
      (fun j => if j = 0 then [1, 2] else if j = 1 then [3, 4] else [])
      [] 0 5 9 1 0 0 0 true none).store.map StoreEntry.state
      = [[1, 2], [1, 3]] ∧
    ((⟨1, fun _ _ => some 7, none, []⟩ :
        HindsightExperienceReplayBuffer).push
      (fun j => if j = 0 then [1, 2] else if j = 1 then [3, 4] else [])
      [] 0 5 9 1 0 0 0 true none).heap 0 = [1, 3] ∧
    List.drop 1 [(1 : ℚ), 3] ≠ [4] := by
  refine ⟨by decide, by decide, by decide⟩

/-- Claim C1 (amended): on a `done = true` push,
`additional_goal = next_state[:-goal_dim]` is the episode's final
`next_state` with its last `goal_dim` elements dropped (its leading part —
not its trailing `goal_dim` elements); for every buffered transition of
the episode, in original forward order, the goal suffix of both its
`state` and `next_state` tensors is overwritten in place (the caller's
tensors are mutated, as visible in the heap) with `additional_goal`. -/
theorem claim_C1_additional_goal_overwrite
    (b : HindsightExperienceReplayBuffer) (h : Heap)
    (store : List StoreEntry) (state action : Nat) (reward : ℚ)
    (next_state cav nav asp : Nat) (cost : Option ℚ)
    (hgd : 0 < b.goal_dim)
    (hrf : ∀ s a, (b.reward_fn s a).isSome)
    (hlen : ∀ e ∈ b.trajectory
        ++ ([⟨state, action, next_state, cav, nav, asp, true, cost⟩] :
          List HERTransition),
      (h e.state).length = 2 * b.goal_dim ∧
      (h e.next_state).length = 2 * b.goal_dim) :
    pyDropLast (h next_state) b.goal_dim = (h next_state).take b.goal_dim ∧
    (b.push h store state action reward next_state cav nav asp true
      cost).err = none ∧
    (∀ e ∈ b.trajectory
        ++ ([⟨state, action, next_state, cav, nav, asp, true, cost⟩] :
          List HERTransition),
      (b.push h store state action reward next_state cav nav asp true
        cost).heap e.state
        = (h e.state).take b.goal_dim
          ++ pyDropLast (h next_state) b.goal_dim ∧
      (b.push h store state action reward next_state cav nav asp true
        cost).heap e.next_state
        = (h e.next_state).take b.goal_dim
          ++ pyDropLast (h next_state) b.goal_dim) ∧
    (b.push h store state action reward next_state cav nav asp true
      cost).store
      = store ++ (⟨h state, action, reward, h next_state, cav, nav, asp,
          true, cost⟩ : StoreEntry)
        :: (b.trajectory
            ++ ([⟨state, action, next_state, cav, nav, asp, true, cost⟩] :
              List HERTransition)).map
          (relabSnap b.goal_dim b.reward_fn b.done_fn h next_state) := by
  obtain ⟨c1, _, c3, c4⟩ := herPush_done_char b h store state action reward
    next_state cav nav asp cost hgd hrf hlen
  have hf : (h next_state).length = 2 * b.goal_dim :=
    (hlen (⟨state, action, next_state, cav, nav, asp, true, cost⟩ :
      HERTransition) (by simp)).2
  have hagd : pyDropLast (h next_state) b.goal_dim
      = (h next_state).take b.goal_dim := pyDropLast_eq_take _ _ hgd hf
  refine ⟨hagd, c1, ?_, c3⟩
  intro e he
  constructor
  · rw [c4 e.state, writesRef_of_mem_state _ e he, if_pos rfl, hagd]
  · rw [c4 e.next_state, writesRef_of_mem_next _ e he, if_pos rfl, hagd]

/-- Claim C7: every relabeled record pushed by the hindsight pass carries
`reward = reward_fn(relabeled state, action)` and
`done = done_fn(relabeled state, action)` when a `done_fn` was supplied at
construction, else the original transition's done flag. -/
theorem claim_C7_relabeled_reward_and_done
    (b : HindsightExperienceReplayBuffer) (h : Heap)
    (store : List StoreEntry) (state action : Nat) (reward : ℚ)
    (next_state cav nav asp : Nat) (cost : Option ℚ)
    (hgd : 0 < b.goal_dim)
    (hrf : ∀ s a, (b.reward_fn s a).isSome)
    (hlen : ∀ e ∈ b.trajectory
        ++ ([⟨state, action, next_state, cav, nav, asp, true, cost⟩] :
          List HERTransition),
      (h e.state).length = 2 * b.goal_dim ∧
      (h e.next_state).length = 2 * b.goal_dim) :
    (b.push h store state action reward next_state cav nav asp true
      cost).store
      = store ++ (⟨h state, action, reward, h next_state, cav, nav, asp,
          true, cost⟩ : StoreEntry)
        :: (b.trajectory
            ++ ([⟨state, action, next_state, cav, nav, asp, true, cost⟩] :
              List HERTransition)).map
          (relabSnap b.goal_dim b.reward_fn b.done_fn h next_state) ∧
    (∀ e ∈ b.trajectory
        ++ ([⟨state, action, next_state, cav, nav, asp, true, cost⟩] :
          List HERTransition),
      b.reward_fn
          (relabSnap b.goal_dim b.reward_fn b.done_fn h next_state e).state
          e.action
        = some (relabSnap b.goal_dim b.reward_fn b.done_fn h next_state
            e).reward ∧
      (relabSnap b.goal_dim b.reward_fn b.done_fn h next_state e).done
        = (match b.done_fn with
           | none => e.done
           | some g => g (relabSnap b.goal_dim b.reward_fn b.done_fn h
               next_state e).state e.action)) := by
  obtain ⟨_, _, c3, _⟩ := herPush_done_char b h store state action reward
    next_state cav nav asp cost hgd hrf hlen
  refine ⟨c3, ?_⟩
  intro e _
  obtain ⟨r, hr⟩ := Option.isSome_iff_exists.mp
    (hrf ((h e.state).take b.goal_dim
      ++ pyDropLast (h next_state) b.goal_dim) e.action)
  constructor
  · simp only [relabSnap]
    rw [hr]
    rfl
  · rfl

/-- Claim C5: an episode pushed transition-by-transition (all
`done = false` then one `done = true`) produces exactly
`2 × episode_length` pushes into the underlying store when it terminates;
while `done = false`, each push adds exactly one entry to the pending
trajectory, exactly one (verbatim) store record, and zero
relabeling pushes. -/
theorem claim_C5_store_push_count (b : HindsightExperienceReplayBuffer)
    (h : Heap) (store : List StoreEntry) (pre : List PushArgs)
    (last : PushArgs)
    (htraj : b.trajectory = [])
    (hgd : 0 < b.goal_dim)
    (hrf : ∀ s a, (b.reward_fn s a).isSome)
    (hnd : ∀ a ∈ pre, a.done = false)
    (hld : last.done = true)
    (hlen : ∀ a ∈ pre ++ [last], (h a.state).length = 2 * b.goal_dim ∧
      (h a.next_state).length = 2 * b.goal_dim) :
    (pushMany b h store (pre ++ [last])).err = none ∧
    (pushMany b h store (pre ++ [last])).store.length
      = store.length + 2 * (pre ++ [last]).length ∧
    (∀ k, k ≤ pre.length →
      (pushMany b h store (pre.take k)).store.length = store.length + k ∧
      (pushMany b h store (pre.take k)).buffer.trajectory.length = k ∧
      (pushMany b h store (pre.take k)).err = none) := by
  have hepi := pushMany_episode pre b h store last hnd
  have hlast : last ∈ pre ++ [last] := by simp
  obtain ⟨c1, _, c3, _⟩ := herPush_done_char
    ({ b with trajectory := b.trajectory ++ pre.map toEntry } :
      HindsightExperienceReplayBuffer)
    h (store ++ pre.map (origSnap h)) last.state last.action last.reward
    last.next_state last.curr_available_actions last.next_available_actions
    last.action_space last.cost hgd hrf
    (by
      intro e he
      simp only [htraj, List.nil_append, List.mem_append, List.mem_map,
        List.mem_singleton] at he
      rcases he with ⟨a, ha, rfl⟩ | rfl
      · have := hlen a (by simp [ha])
        exact this
      · exact hlen last hlast)
  rw [hld] at hepi
  refine ⟨by rw [hepi]; exact c1, ?_, ?_⟩
  · rw [hepi, c3]
    simp [htraj]
    omega
  · intro k hk
    have hndk : ∀ a ∈ pre.take k, a.done = false := by
      intro a ha
      exact hnd a (List.take_subset k pre ha)
    rw [pushMany_notdone (pre.take k) b h store hndk]
    simp [htraj, List.length_take]
    omega

/-- Claim C6: a `done = false` push appends exactly one trajectory entry
(leaving the trajectory non-empty) and one verbatim store record, with no
exception; a `done = true` push that completes without an exception leaves
the trajectory empty and has pushed exactly
`1 + (episode length)` records — the inner relabeling pushes go through
the base-class path, never re-trigger relabeling and never append to the
trajectory. -/
theorem claim_C6_trajectory_lifecycle (b : HindsightExperienceReplayBuffer)
    (h : Heap) (store : List StoreEntry) (state action : Nat) (reward : ℚ)
    (next_state cav nav asp : Nat) (cost : Option ℚ)
    (herr : (b.push h store state action reward next_state cav nav asp
      true cost).err = none) :
    (b.push h store state action reward next_state cav nav asp false
      cost).buffer.trajectory
      = b.trajectory
        ++ [⟨state, action, next_state, cav, nav, asp, false, cost⟩] ∧
    (b.push h store state action reward next_state cav nav asp false
      cost).buffer.trajectory ≠ [] ∧
    (b.push h store state action reward next_state cav nav asp false
      cost).store
      = store ++ [⟨h state, action, reward, h next_state, cav, nav, asp,
          false, cost⟩] ∧
    (b.push h store state action reward next_state cav nav asp false
      cost).err = none ∧
    (b.push h store state action reward next_state cav nav asp true
      cost).buffer.trajectory = [] ∧
    (b.push h store state action reward next_state cav nav asp true
      cost).store.length = store.length + 1 + (b.trajectory.length + 1)
    := by
  obtain ⟨hbuf, hlen⟩ := herPush_done_err_none b h store state action
    reward next_state cav nav asp cost herr
  refine ⟨by rw [herPush_notdone], by rw [herPush_notdone]; simp,
    by rw [herPush_notdone], by rw [herPush_notdone], ?_, hlen⟩
  rw [hbuf]

/-- Claim C8 counterexample: an episode of empty state vectors
(`length 0 < goal_dim = 1`) relabels without any error — Python slicing
clamps, the empty `additional_goal` is assigned into the empty suffix
slice, and `push` succeeds, refuting the claim that a state vector
shorter than `goal_dim` always produces an index/shape error. -/
theorem claim_C8_counterexample :
    ((fun _ => ([] : List ℚ)) (0 : Nat)).length < 1 ∧
    ((⟨1, fun _ _ => some 7, none, []⟩ :
        HindsightExperienceReplayBuffer).push
      (fun _ => ([] : List ℚ)) [] 0 4 9 1 0 0 0 true none).err = none := by
  exact ⟨by decide, by decide⟩

/-- Claim C8 (amended): exceptions propagate out of `push` uncaught.
If `reward_fn` raises during relabeling (shape-consistent single-
transition episode shown), `push` fails with that exception; and if the
episode's vectors have a common positive length shorter than `goal_dim`,
`push` fails with the slice shape error (the degenerate empty-vector case
is excluded: slicing clamps and succeeds there). -/
theorem claim_C8_error_propagation (b : HindsightExperienceReplayBuffer)
    (h : Heap) (store : List StoreEntry) (state action : Nat) (reward : ℚ)
    (next_state cav nav asp : Nat) (cost : Option ℚ) (L : Nat)
    (hgd : 0 < b.goal_dim) :
    (b.trajectory = [] →
      (h state).length = 2 * b.goal_dim →
      (h next_state).length = 2 * b.goal_dim →
      b.reward_fn ((h state).take b.goal_dim
        ++ (h next_state).take b.goal_dim) action = none →
      (b.push h store state action reward next_state cav nav asp true
        cost).err = some PError.rewardFnRaised) ∧
    ((∀ e ∈ b.trajectory
        ++ ([⟨state, action, next_state, cav, nav, asp, true, cost⟩] :
          List HERTransition),
        (h e.state).length = L ∧ (h e.next_state).length = L) →
      0 < L → L < b.goal_dim →
      (b.push h store state action reward next_state cav nav asp true
        cost).err = some PError.sliceShapeMismatch) := by
  constructor
  · intro htraj hs hn hraise
    simp only [HindsightExperienceReplayBuffer.push, fifoPush, if_true,
      htraj, List.nil_append]
    have herr := relabelLoop_reward_raise b.goal_dim b.reward_fn b.done_fn
      next_state h
      (store ++ [⟨h state, action, reward, h next_state, cav, nav, asp,
        true, cost⟩])
      (⟨state, action, next_state, cav, nav, asp, true, cost⟩ :
        HERTransition)
      [] hgd hn hs hn hraise
    simp only [herr]
  · intro hlenL hL0 hLgd
    have hfnew : (h next_state).length = L :=
      (hlenL (⟨state, action, next_state, cav, nav, asp, true, cost⟩ :
        HERTransition) (by simp)).2
    simp only [HindsightExperienceReplayBuffer.push, fifoPush, if_true]
    rcases hbt : b.trajectory with _ | ⟨t, ts⟩
    · have hfail : pySetSuffix (h state) b.goal_dim
          (pyDropLast (h next_state) b.goal_dim) = none :=
        pySetSuffix_mismatch (h state) (h next_state) b.goal_dim L hgd
          (hlenL (⟨state, action, next_state, cav, nav, asp, true, cost⟩ :
            HERTransition) (by simp)).1
          hfnew hL0 (by omega) (by omega)
      simp only [List.nil_append]
      rw [relabelLoop_first_write_fail _ _ _ _ _ _ _ _ hfail]
    · have htmem : t ∈ b.trajectory
          ++ ([⟨state, action, next_state, cav, nav, asp, true, cost⟩] :
            List HERTransition) := by
        rw [hbt]
        simp
      have hfail : pySetSuffix (h t.state) b.goal_dim
          (pyDropLast (h next_state) b.goal_dim) = none :=
        pySetSuffix_mismatch (h t.state) (h next_state) b.goal_dim L hgd
          (hlenL t htmem).1 hfnew hL0 (by omega) (by omega)
      simp only [List.cons_append]
      rw [relabelLoop_first_write_fail _ _ _ _ _ _ _ _ hfail]

/-- Claim C10 counterexample: with `goal_dim = 2` and vectors of length
`3 ≠ 2·goal_dim`, the computed `additional_goal` has size 1 and torch
slice assignment broadcasts it, so the terminal push succeeds and the
relabeled record is pushed — refuting the claim that every state length
other than `2·goal_dim` raises a shape error. -/
theorem claim_C10_counterexample :
    ((fun j => if j = 0 then [1, 2, 3]
        else if j = 1 then [4, 5, 6] else ([] : List ℚ)) (0 : Nat)).length
      ≠ 2 * 2 ∧
    ((⟨2, fun _ _ => some 7, none, []⟩ :
        HindsightExperienceReplayBuffer).push
      (fun j => if j = 0 then [1, 2, 3]
        else if j = 1 then [4, 5, 6] else ([] : List ℚ))
      [] 0 5 9 1 0 0 0 true none).err = none ∧
    ((⟨2, fun _ _ => some 7, none, []⟩ :
        HindsightExperienceReplayBuffer).push
      (fun j => if j = 0 then [1, 2, 3]
        else if j = 1 then [4, 5, 6] else ([] : List ℚ))
      [] 0 5 9 1 0 0 0 true none).store.length = 2 := by
  exact ⟨by decide, by decide, by decide⟩

/-- Claim C10 (amended): for an episode whose vectors share a positive
length `L`, `additional_goal` has length `L − goal_dim` and the target
suffix slice has length `goal_dim` (for `goal_dim ≤ L`); relabeling is
shape-consistent exactly in the sense that for `L ∉ {2·goal_dim,
goal_dim + 1}` the first suffix assignment raises a shape error, the
error propagates, and no relabeled transition is pushed (`L = goal_dim+1`
escapes via torch's size-1 broadcast; `L = 0` via slice clamping). -/
theorem claim_C10_relabel_shape_consistency
    (b : HindsightExperienceReplayBuffer) (h : Heap)
    (store : List StoreEntry) (state action : Nat) (reward : ℚ)
    (next_state cav nav asp : Nat) (cost : Option ℚ) (L : Nat)
    (hgd : 0 < b.goal_dim)
    (hlenL : ∀ e ∈ b.trajectory
        ++ ([⟨state, action, next_state, cav, nav, asp, true, cost⟩] :
          List HERTransition),
      (h e.state).length = L ∧ (h e.next_state).length = L)
    (hL0 : 0 < L) (hne2 : L ≠ 2 * b.goal_dim)
    (hne1 : L ≠ b.goal_dim + 1) :
    (b.goal_dim ≤ L →
      (pyDropLast (h next_state) b.goal_dim).length = L - b.goal_dim) ∧
    (b.goal_dim ≤ L →
      (pySuffix (h state) b.goal_dim).length = b.goal_dim) ∧
    (b.push h store state action reward next_state cav nav asp true
      cost).err = some PError.sliceShapeMismatch ∧
    (b.push h store state action reward next_state cav nav asp true
      cost).store
      = store ++ [⟨h state, action, reward, h next_state, cav, nav, asp,
          true, cost⟩] := by
  have hfnew : (h next_state).length = L :=
    (hlenL (⟨state, action, next_state, cav, nav, asp, true, cost⟩ :
      HERTransition) (by simp)).2
  have hsnew : (h state).length = L :=
    (hlenL (⟨state, action, next_state, cav, nav, asp, true, cost⟩ :
      HERTransition) (by simp)).1
  have hk : ¬ b.goal_dim = 0 := by omega
  refine ⟨?_, ?_, ?_⟩
  · intro _
    rw [pyDropLast_length _ _ hk, hfnew]
  · intro hle
    unfold pySuffix pySuffixStart
    rw [if_neg hk, List.length_drop, hsnew]
    omega
  · simp only [HindsightExperienceReplayBuffer.push, fifoPush, if_true]
    rcases hbt : b.trajectory with _ | ⟨t, ts⟩
    · have hfail : pySetSuffix (h state) b.goal_dim
          (pyDropLast (h next_state) b.goal_dim) = none :=
        pySetSuffix_mismatch (h state) (h next_state) b.goal_dim L hgd
          hsnew hfnew hL0 hne2 hne1
      simp only [List.nil_append]
      rw [relabelLoop_first_write_fail _ _ _ _ _ _ _ _ hfail]
      exact ⟨rfl, rfl⟩
    · have htmem : t ∈ b.trajectory
          ++ ([⟨state, action, next_state, cav, nav, asp, true, cost⟩] :
            List HERTransition) := by
        rw [hbt]
        simp
      have hfail : pySetSuffix (h t.state) b.goal_dim
          (pyDropLast (h next_state) b.goal_dim) = none :=
        pySetSuffix_mismatch (h t.state) (h next_state) b.goal_dim L hgd
          (hlenL t htmem).1 hfnew hL0 hne2 hne1
      simp only [List.cons_append]
      rw [relabelLoop_first_write_fail _ _ _ _ _ _ _ _ hfail]
      exact ⟨rfl, rfl⟩

/-! ### Witnesses -/

/-- Witness for the amended claim C1 at a concrete one-transition
episode. -/
theorem claim_C1_additional_goal_overwrite_witness :
    pyDropLast (heap24 1) 1 = (heap24 1).take 1 ∧
    (bufGd1.push heap24 [] 0 5 9 1 0 0 0 true none).err = none ∧
    (bufGd1.push heap24 [] 0 5 9 1 0 0 0 true none).heap 0
      = (heap24 0).take 1 ++ pyDropLast (heap24 1) 1 ∧
    (bufGd1.push heap24 [] 0 5 9 1 0 0 0 true none).heap 1
      = (heap24 1).take 1 ++ pyDropLast (heap24 1) 1 ∧
    (bufGd1.push heap24 [] 0 5 9 1 0 0 0 true none).store
      = [] ++ (⟨heap24 0, 5, 9, heap24 1, 0, 0, 0, true, none⟩ : StoreEntry)
        :: ([⟨0, 5, 1, 0, 0, 0, true, none⟩] : List HERTransition).map
          (relabSnap 1 bufGd1.reward_fn bufGd1.done_fn heap24 1) := by
  obtain ⟨h1, h2, h3, h4⟩ := claim_C1_additional_goal_overwrite bufGd1
    heap24 [] 0 5 9 1 0 0 0 none (by decide) (fun s a => rfl) (by decide)
  exact ⟨h1, h2,
    (h3 (⟨0, 5, 1, 0, 0, 0, true, none⟩ : HERTransition) (by decide)).1,
    (h3 (⟨0, 5, 1, 0, 0, 0, true, none⟩ : HERTransition) (by decide)).2,
    h4⟩

/-- Witness for claim C2 at a concrete two-transition buffer. -/
theorem claim_C2_preprocess_witness :
    (match preprocessReplayBuffer (1/2) (1/3) vW piW rbW with
     | Except.ok out =>
        out.memory.reverse.getD 0 dW
          = { rbW.memory.reverse.getD 0 dW with
              gae := some (gaeSpec (1/2) (1/3) vW (vW 12) 0
                rbW.memory.reverse dW 0),
              lam_return := some (gaeSpec (1/2) (1/3) vW (vW 12) 0
                  rbW.memory.reverse dW 0
                + vW (rbW.memory.reverse.getD 0 dW).state),
              action_probs := some
                (piW (rbW.memory.reverse.getD 0 dW).state
                  (rbW.memory.reverse.getD 0 dW).action) }
     | Except.error _ => False) := by
  obtain ⟨out, hout, _, hi⟩ := claim_C2_preprocess_gae_lambda_return
    (1/2) (1/3) vW piW rbW
    (⟨11, 1, 2, 12, true, none, none, none⟩ : OnPolicyTransition ℚ ℕ) dW
    rfl rfl
  rw [hout]
  exact hi 0 (by decide)

/-- Witness for claim C4 at a concrete one-sample batch with
`ratio = 2`, `gae = 1`, `ε = 0.2`. -/
theorem claim_C4_actor_loss_witness :
    ([(4 : ℚ)/5] : List ℚ).length = ([(2 : ℚ)/5] : List ℚ).length ∧
    ([(2 : ℚ)/5] : List ℚ).length = ([(1 : ℚ)] : List ℚ).length ∧
    (actorLoss (fun (l : List ℚ) => l.sum) (1/5) (1/100)
        [4/5] [2/5] [1]).val
      = -(((([(4 : ℚ)/5].zip [(2 : ℚ)/5]).zip [(1 : ℚ)]).map (fun x =>
            min ((x.1.1 / x.1.2) * x.2)
              ((min (max (x.1.1 / x.1.2) (1 - 1/5)) (1 + 1/5))
                * x.2))).sum)
        - (1/100) * (fun (l : List ℚ) => l.sum) [4/5] ∧
    (TValue.div ⟨4/5, true⟩ ⟨2/5, false⟩).val = 2 ∧
    (TValue.mul (TValue.div ⟨4/5, true⟩ ⟨2/5, false⟩) ⟨1, false⟩).val
      = 2 ∧
    (TValue.mul (TValue.clampT (1 - 1/5) (1 + 1/5)
        (TValue.div ⟨4/5, true⟩ ⟨2/5, false⟩)) ⟨1, false⟩).val = 6/5 ∧
    (TValue.minT
        (TValue.mul (TValue.div ⟨4/5, true⟩ ⟨2/5, false⟩) ⟨1, false⟩)
        (TValue.mul (TValue.clampT (1 - 1/5) (1 + 1/5)
          (TValue.div ⟨4/5, true⟩ ⟨2/5, false⟩)) ⟨1, false⟩)).val = 6/5 ∧
    (TValue.mul (TValue.clampT (1 - 0) (1 + 0) ⟨3, true⟩)
      ⟨5, false⟩).val = 5 := by
  obtain ⟨c1, c2, c3, c4, c5, c6⟩ := claim_C4_actor_loss_clipped_surrogate
    (fun (l : List ℚ) => l.sum) (1/5) (1/100) [4/5] [2/5] [1] rfl rfl
  exact ⟨rfl, rfl, c1, c2, c3, c4, c5, c6 ⟨3, true⟩ 5⟩

/-- Witness for claim C5 at a concrete two-transition episode with
`goal_dim = 1` and length-2 tensors. -/
theorem claim_C5_store_push_count_witness :
    (pushMany bufGd1 heapPairs [] (preW ++ [lastW])).err = none ∧
    (pushMany bufGd1 heapPairs [] (preW ++ [lastW])).store.length
      = 0 + 2 * (preW ++ [lastW]).length ∧
    ((pushMany bufGd1 heapPairs [] (preW.take 1)).store.length = 0 + 1 ∧
      (pushMany bufGd1 heapPairs []
        (preW.take 1)).buffer.trajectory.length = 1 ∧
      (pushMany bufGd1 heapPairs [] (preW.take 1)).err = none) := by
  obtain ⟨c1, c2, c3⟩ := claim_C5_store_push_count bufGd1 heapPairs []
    preW lastW rfl (by decide) (fun s a => rfl) (by decide) rfl (by decide)
  exact ⟨c1, c2, c3 1 (by decide)⟩

/-- Witness for claim C6 at a concrete shape-consistent push. -/
theorem claim_C6_trajectory_lifecycle_witness :
    (bufGd1.push heap24 [] 0 5 9 1 0 0 0 true none).err = none ∧
    (bufGd1.push heap24 [] 0 5 9 1 0 0 0 false none).buffer.trajectory
      = bufGd1.trajectory ++ [⟨0, 5, 1, 0, 0, 0, false, none⟩] ∧
    (bufGd1.push heap24 [] 0 5 9 1 0 0 0 false none).buffer.trajectory
      ≠ [] ∧
    (bufGd1.push heap24 [] 0 5 9 1 0 0 0 false none).store
      = [] ++ [⟨heap24 0, 5, 9, heap24 1, 0, 0, 0, false, none⟩] ∧
    (bufGd1.push heap24 [] 0 5 9 1 0 0 0 false none).err = none ∧
    (bufGd1.push heap24 [] 0 5 9 1 0 0 0 true none).buffer.trajectory
      = [] ∧
    (bufGd1.push heap24 [] 0 5 9 1 0 0 0 true none).store.length
      = 0 + 1 + (bufGd1.trajectory.length + 1) := by
  have herr : (bufGd1.push heap24 [] 0 5 9 1 0 0 0 true none).err
      = none := by decide
  obtain ⟨a1, a2, a3, a4, a5, a6⟩ := claim_C6_trajectory_lifecycle bufGd1
    heap24 [] 0 5 9 1 0 0 0 none herr
  exact ⟨herr, a1, a2, a3, a4, a5, a6⟩

/-- Witness for claim C7 at a concrete one-transition episode. -/
theorem claim_C7_relabeled_reward_done_witness :
    (bufGd1.push heap24 [] 0 6 9 1 0 0 0 true none).store
      = [] ++ (⟨heap24 0, 6, 9, heap24 1, 0, 0, 0, true, none⟩ : StoreEntry)
        :: ([⟨0, 6, 1, 0, 0, 0, true, none⟩] : List HERTransition).map
          (relabSnap 1 bufGd1.reward_fn bufGd1.done_fn heap24 1) ∧
    bufGd1.reward_fn
        (relabSnap 1 bufGd1.reward_fn bufGd1.done_fn heap24 1
          ⟨0, 6, 1, 0, 0, 0, true, none⟩).state 6
      = some (relabSnap 1 bufGd1.reward_fn bufGd1.done_fn heap24 1
          ⟨0, 6, 1, 0, 0, 0, true, none⟩).reward ∧
    (relabSnap 1 bufGd1.reward_fn bufGd1.done_fn heap24 1
        ⟨0, 6, 1, 0, 0, 0, true, none⟩).done = true := by
  obtain ⟨c1, c2⟩ := claim_C7_relabeled_reward_and_done bufGd1 heap24 []
    0 6 9 1 0 0 0 none (by decide) (fun s a => rfl) (by decide)
  exact ⟨c1,
    (c2 (⟨0, 6, 1, 0, 0, 0, true, none⟩ : HERTransition) (by decide)).1,
    (c2 (⟨0, 6, 1, 0, 0, 0, true, none⟩ : HERTransition) (by decide)).2⟩

/-- Witness for the amended claim C8: a raising `reward_fn` propagates,
and a homogeneous episode of non-empty vectors shorter than `goal_dim`
fails with the slice shape error. -/
theorem claim_C8_error_propagation_witness :
    (0 : Nat) < 1 ∧
    (bufRaise.push heap24 [] 0 5 9 1 0 0 0 true none).err
      = some PError.rewardFnRaised ∧
    (0 : Nat) < 3 ∧
    (bufGd3.push heapPairs [] 0 5 9 1 0 0 0 true none).err
      = some PError.sliceShapeMismatch := by
  obtain ⟨ca, _⟩ := claim_C8_error_propagation bufRaise heap24 [] 0 5 9 1
    0 0 0 none 0 (by decide)
  obtain ⟨_, cb⟩ := claim_C8_error_propagation bufGd3 heapPairs [] 0 5 9 1
    0 0 0 none 2 (by decide)
  exact ⟨by decide, ca rfl (by decide) (by decide) rfl, by decide,
    cb (by decide) (by decide) (by decide)⟩

/-- Witness for the amended claim C10: `goal_dim = 1` with length-3
vectors (`3 ∉ {2, 2}`) fails on the first suffix assignment; no relabeled
transition is pushed. -/
theorem claim_C10_shape_consistency_witness :
    (pyDropLast (heapTriples 1) 1).length = 3 - 1 ∧
    (pySuffix (heapTriples 0) 1).length = 1 ∧
    (bufGd1.push heapTriples [] 0 5 9 1 0 0 0 true none).err
      = some PError.sliceShapeMismatch ∧
    (bufGd1.push heapTriples [] 0 5 9 1 0 0 0 true none).store
      = [] ++ [⟨heapTriples 0, 5, 9, heapTriples 1, 0, 0, 0, true, none⟩]
    := by
  obtain ⟨c1, c2, c3, c4⟩ := claim_C10_relabel_shape_consistency bufGd1
    heapTriples [] 0 5 9 1 0 0 0 none 3 (by decide) (by decide) (by decide)
    (by decide) (by decide)
  exact ⟨c1 (by decide), c2 (by decide), c3, c4⟩

/-- Witness for the amended claim C3 at a concrete batch. -/
theorem claim_C3_entropy_input_detached_witness :
    (actorLossEntropyArg [2/3]).map TValue.val = [2/3] ∧
    (actorLossEntropyArg [2/3]).all (fun t => !t.live) = true ∧
    (actorGetActionProb [(2 : ℚ)/3]).all (fun t => t.live) = true ∧
    (storedActionProbs [(1 : ℚ)/4]).all (fun t => !t.live) = true :=
  claim_C3_entropy_input_detached [2/3] [1/4]

/-- Witness for claim C9: a wrong buffer type and an empty memory each
produce the assertion error at concrete inputs. -/
theorem claim_C9_preprocess_preconditions_witness :
    preprocessReplayBuffer (1/2) (1/3) vW piW
      (⟨BufferKind.other, memW⟩ : PPOReplayBuffer ℚ ℕ)
      = Except.error PError.assertionError ∧
    preprocessReplayBuffer (1/2) (1/3) vW piW
      (⟨BufferKind.onPolicy, []⟩ : PPOReplayBuffer ℚ ℕ)
      = Except.error PError.assertionError :=
  ⟨(claim_C9_preprocess_preconditions (1/2) (1/3) vW piW
      (⟨BufferKind.other, memW⟩ : PPOReplayBuffer ℚ ℕ)).1.mpr
    (Or.inl (by decide)),
   (claim_C9_preprocess_preconditions (1/2) (1/3) vW piW
      (⟨BufferKind.onPolicy, []⟩ : PPOReplayBuffer ℚ ℕ)).1.mpr
    (Or.inr rfl)⟩

end Pearl
